import Mathlib

/-!
Verification of the quant-lab portfolio accounting core.

A shallow embedding, in Lean 4, of the portfolio/position/trade state machine,
the backtesting day loop, and the performance-metric functions of the
`quant-lab` repository (`packages/core/quant_lab`).

Modelling conventions:

* Python `Decimal` arithmetic is modelled by `ℚ` (exact rational arithmetic);
  the source never relies on the 28-digit context rounding of `Decimal` in any
  property considered here.
* Pydantic validation raising `ValidationError` (and the explicit
  `raise ValueError` branches) are modelled by `Except String` results; the
  message text is abbreviated and immaterial.
* Pydantic `model_copy(update=...)` performs no re-validation in the source,
  so record updates are modelled by plain structure updates.
* The pydantic `ticker` field validators run *after* the `min_length`/
  `max_length` constraints: the constraints apply to the raw argument and the
  stored value is `raw.upper().strip()`, which is *not* re-checked.  This is
  modelled faithfully: checked constructors test the raw string and store
  `pyStrip (pyUpper raw)`.
* Python `dict` preserves insertion order, updates in place on existing keys,
  and `del` removes a key; positions are modelled as association lists with
  the corresponding `insertPos` / `erasePos` operations.
* `timestamp` and `metadata` fields of `Trade` are omitted: they are never
  read by any operation considered here.
-/

namespace QuantLab

/-- Python `str.upper()` over the character list (ASCII uppercase mapping, as
CPython applies to ticker strings). -/
def pyUpper (s : String) : String :=
  ⟨s.data.map Char.toUpper⟩

/-- Python `str.strip()`: remove leading and trailing whitespace. -/
def pyStrip (s : String) : String :=
  ⟨List.reverse (List.dropWhile Char.isWhitespace
    (List.reverse (List.dropWhile Char.isWhitespace s.data)))⟩

/-- Decidable equality for `Except` results. -/
instance {ε α : Type} [DecidableEq ε] [DecidableEq α] : DecidableEq (Except ε α) :=
  fun x y =>
    match x, y with
    | .ok a, .ok b =>
        if h : a = b then isTrue (by rw [h]) else isFalse (fun hc => h (Except.ok.inj hc))
    | .error e, .error f =>
        if h : e = f then isTrue (by rw [h]) else isFalse (fun hc => h (Except.error.inj hc))
    | .ok _, .error _ => isFalse (fun hc => Except.noConfusion hc)
    | .error _, .ok _ => isFalse (fun hc => Except.noConfusion hc)

/-- Trade action types (`TradeAction` in `trade.py`). -/
inductive TradeAction where
  | buy
  | sell
  | short
  | cover
deriving DecidableEq, Repr

/-- Side of a position (`PositionSide` in `position.py`). -/
inductive PositionSide where
  | long
  | short
deriving DecidableEq, Repr

/-- A position in a single security (`Position` in `position.py`).
The stored `ticker` is the pydantic-normalized value `raw.upper().strip()`. -/
structure Position where
  ticker : String
  side : PositionSide
  quantity : ℚ
  avg_price : ℚ
  current_price : ℚ
deriving DecidableEq, Repr

/-- Checked construction of a `Position`: the pydantic field constraints
(`min_length=1`, `max_length=10` on the raw ticker, `quantity > 0`,
`avg_price > 0`, `current_price ≥ 0`), then normalization of the ticker by the
`ticker_uppercase` validator. -/
def Position.mkE (ticker : String) (side : PositionSide) (quantity avg_price current_price : ℚ) :
    Except String Position :=
  if 1 ≤ ticker.length ∧ ticker.length ≤ 10 ∧
      0 < quantity ∧ 0 < avg_price ∧ 0 ≤ current_price then
    .ok ⟨pyStrip (pyUpper ticker), side, quantity, avg_price, current_price⟩
  else
    .error "Position validation failed"

/-- Total cost basis (`quantity × avg_price`). -/
def Position.cost_basis (p : Position) : ℚ := p.quantity * p.avg_price

/-- Current market value (`quantity × current_price`). -/
def Position.market_value (p : Position) : ℚ := p.quantity * p.current_price

/-- Unrealized profit/loss of a position. -/
def Position.unrealized_pnl (p : Position) : ℚ :=
  if p.side = PositionSide.long then
    (p.current_price - p.avg_price) * p.quantity
  else
    (p.avg_price - p.current_price) * p.quantity

/-- `update_price`: new `Position` with updated current price
(`model_copy`, hence no re-validation). -/
def Position.update_price (p : Position) (new_price : ℚ) : Position :=
  { p with current_price := new_price }

/-- `add_shares`: weighted-average recompute and construction of a new
`Position` (which re-runs the pydantic checks on `p.ticker` and the new
numeric values). -/
def Position.add_shares (p : Position) (quantity price : ℚ) : Except String Position :=
  let new_quantity := p.quantity + quantity
  let new_avg_price := (p.quantity * p.avg_price + quantity * price) / new_quantity
  Position.mkE p.ticker p.side new_quantity new_avg_price p.current_price

/-- `remove_shares`: fails when `quantity` exceeds the held quantity;
otherwise returns the remaining position (or `none` on full closure) together
with the realized profit/loss. -/
def Position.remove_shares (p : Position) (quantity : ℚ) :
    Except String (Option Position × ℚ) :=
  if quantity > p.quantity then
    .error "Cannot remove more shares than held"
  else
    let realized_pnl :=
      if p.side = PositionSide.long then
        (p.current_price - p.avg_price) * quantity
      else
        (p.avg_price - p.current_price) * quantity
    let remaining := p.quantity - quantity
    if remaining = 0 then
      .ok (none, realized_pnl)
    else
      (Position.mkE p.ticker p.side remaining p.avg_price p.current_price).map
        (fun np => (some np, realized_pnl))

/-- The state invariant of a `Position` that is stored inside a `Portfolio`
(established by every successful checked construction whose raw ticker is not
pure whitespace): normalized nonempty ticker of length ≤ 10, positive
quantity and cost basis, non-negative mark price. -/
def Position.Valid (p : Position) : Prop :=
  1 ≤ p.ticker.length ∧ p.ticker.length ≤ 10 ∧
    pyUpper p.ticker = p.ticker ∧ pyStrip p.ticker = p.ticker ∧
    0 < p.quantity ∧ 0 < p.avg_price ∧ 0 ≤ p.current_price

instance (p : Position) : Decidable p.Valid := by
  unfold Position.Valid; infer_instance

/-- An executed trade (`Trade` in `trade.py`); `timestamp` and `metadata`
omitted (inert for every operation modelled here).  The stored `ticker` is the
pydantic-normalized value `raw.upper().strip()`. -/
structure Trade where
  ticker : String
  action : TradeAction
  quantity : ℚ
  price : ℚ
  fees : ℚ
  slippage : ℚ
deriving DecidableEq, Repr

/-- Characterization of the trades constructible through pydantic validation:
the stored ticker is uppercase, stripped, and of length ≤ 10 (it may be empty:
a whitespace raw ticker of length 1–10 passes `min_length=1` and is then
stripped to `""` by the after-validator), and the numeric field constraints
hold. -/
def Trade.Valid (t : Trade) : Prop :=
  t.ticker.length ≤ 10 ∧ pyUpper t.ticker = t.ticker ∧ pyStrip t.ticker = t.ticker ∧
    0 < t.quantity ∧ 0 < t.price ∧ 0 ≤ t.fees ∧ 0 ≤ t.slippage

instance (t : Trade) : Decidable t.Valid := by
  unfold Trade.Valid; infer_instance

/-- Gross value of a trade (`quantity × price`). -/
def Trade.gross_value (t : Trade) : ℚ := t.quantity * t.price

/-- Total cost including fees and slippage. -/
def Trade.total_cost (t : Trade) : ℚ := t.gross_value + t.fees + t.slippage

/-- Whether the trade opens a position (buy/short). -/
def Trade.is_opening (t : Trade) : Bool :=
  t.action = TradeAction.buy ∨ t.action = TradeAction.short

/-- Whether the trade closes a position (sell/cover). -/
def Trade.is_closing (t : Trade) : Bool :=
  t.action = TradeAction.sell ∨ t.action = TradeAction.cover

/-- Effective per-share price including fees and slippage. -/
def Trade.effective_price (t : Trade) : ℚ :=
  let cost_per_share := (t.fees + t.slippage) / t.quantity
  if t.is_opening then t.price + cost_per_share else t.price - cost_per_share

/-- Builder for `Trade` values (`TradeBuilder` in `trade.py`);
`metadata` omitted. -/
structure TradeBuilder where
  ticker : String
  action : TradeAction
  quantity : ℚ
  price : ℚ
  fees : ℚ
  slippage : ℚ
deriving Repr

/-- `TradeBuilder.__init__`: fees and slippage start at zero. -/
def TradeBuilder.create (ticker : String) (action : TradeAction) (quantity price : ℚ) :
    TradeBuilder :=
  ⟨ticker, action, quantity, price, 0, 0⟩

/-- `with_commission`: add a flat commission fee. -/
def TradeBuilder.with_commission (b : TradeBuilder) (commission : ℚ) : TradeBuilder :=
  { b with fees := b.fees + commission }

/-- `with_commission_bps`: add commission as basis points of gross value. -/
def TradeBuilder.with_commission_bps (b : TradeBuilder) (bps : ℚ) : TradeBuilder :=
  { b with fees := b.fees + b.quantity * b.price * bps / 10000 }

/-- `with_slippage_bps`: add slippage as basis points of gross value. -/
def TradeBuilder.with_slippage_bps (b : TradeBuilder) (bps : ℚ) : TradeBuilder :=
  { b with slippage := b.slippage + b.quantity * b.price * bps / 10000 }

/-- `build`: constructs the `Trade`, running the pydantic field constraints on
the raw values and normalizing the ticker. -/
def TradeBuilder.build (b : TradeBuilder) : Except String Trade :=
  if 1 ≤ b.ticker.length ∧ b.ticker.length ≤ 10 ∧
      0 < b.quantity ∧ 0 < b.price ∧ 0 ≤ b.fees ∧ 0 ≤ b.slippage then
    .ok ⟨pyStrip (pyUpper b.ticker), b.action, b.quantity, b.price, b.fees, b.slippage⟩
  else
    .error "Trade validation failed"

/-- Association-list insert modelling Python `dict` assignment
`d[k] = v`: replaces in place when the key exists, else appends. -/
def insertPos : List (String × Position) → String → Position → List (String × Position)
  | [], k, v => [(k, v)]
  | (k', v') :: rest, k, v =>
      if k' = k then (k, v) :: rest else (k', v') :: insertPos rest k v

/-- Association-list erase modelling Python `del d[k]`. -/
def erasePos : List (String × Position) → String → List (String × Position)
  | [], _ => []
  | (k', v') :: rest, k =>
      if k' = k then rest else (k', v') :: erasePos rest k

/-- Immutable portfolio state (`Portfolio` in `portfolio.py`).  Positions are
the ordered `dict` `{ticker: Position}` as an association list. -/
structure Portfolio where
  cash : ℚ
  positions : List (String × Position)
  realized_pnl : ℚ
  initial_capital : ℚ
deriving DecidableEq, Repr

/-- `Portfolio.create`: new portfolio with initial capital (pydantic requires
`cash > 0` and `initial_capital > 0` at construction, which callers of the
claims guarantee by `0 < c`). -/
def Portfolio.create (c : ℚ) : Portfolio :=
  ⟨c, [], 0, c⟩

/-- `get_position`: lookup under the uppercased ticker. -/
def Portfolio.get_position (P : Portfolio) (ticker : String) : Option Position :=
  P.positions.lookup (pyUpper ticker)

/-- `total_value`: cash plus market value of all positions. -/
def Portfolio.total_value (P : Portfolio) : ℚ :=
  P.cash + (P.positions.map (fun kv => kv.2.market_value)).sum

/-- `unrealized_pnl`: sum of position-level unrealized profit/loss. -/
def Portfolio.unrealized_pnl (P : Portfolio) : ℚ :=
  (P.positions.map (fun kv => kv.2.unrealized_pnl)).sum

/-- `update_prices`: update the mark price of every position whose ticker
appears in the price dict; other positions are kept unchanged. -/
def Portfolio.update_prices (P : Portfolio) (prices : List (String × ℚ)) : Portfolio :=
  { P with
    positions := P.positions.map (fun kv =>
      match prices.lookup kv.1 with
      | some pr => (kv.1, kv.2.update_price pr)
      | none => kv) }

/-- `_execute_buy`: open/increase a long position. -/
def Portfolio.execute_buy (P : Portfolio) (t : Trade) : Except String Portfolio :=
  let ticker := pyUpper t.ticker
  let required_cash := t.total_cost
  if required_cash > P.cash then
    .error "Insufficient cash for buy"
  else
    let new_cash := P.cash - required_cash
    match P.get_position ticker with
    | some pos =>
        if pos.side = PositionSide.long then
          (pos.add_shares t.quantity t.effective_price).map (fun np =>
            { P with cash := new_cash, positions := insertPos P.positions ticker np })
        else
          .error "Cannot buy over an existing short position"
    | none =>
        (Position.mkE ticker PositionSide.long t.quantity t.effective_price t.price).map
          (fun np =>
            { P with cash := new_cash, positions := insertPos P.positions ticker np })

/-- `_execute_sell`: close/reduce a long position. -/
def Portfolio.execute_sell (P : Portfolio) (t : Trade) : Except String Portfolio :=
  let ticker := pyUpper t.ticker
  match P.get_position ticker with
  | none => .error "No long position to sell"
  | some pos =>
      if pos.side ≠ PositionSide.long then
        .error "No long position to sell"
      else if t.quantity > pos.quantity then
        .error "Cannot sell more shares than held"
      else
        (pos.remove_shares t.quantity).map (fun r =>
          let new_positions :=
            match r.1 with
            | some rp => insertPos P.positions ticker (rp.update_price t.price)
            | none => erasePos P.positions ticker
          let proceeds := t.quantity * t.price - t.fees - t.slippage
          { P with
            cash := P.cash + proceeds,
            positions := new_positions,
            realized_pnl := P.realized_pnl + r.2 })

/-- `_execute_short`: open/increase a short position; cash proceeds are
received immediately. -/
def Portfolio.execute_short (P : Portfolio) (t : Trade) : Except String Portfolio :=
  let ticker := pyUpper t.ticker
  let proceeds := t.quantity * t.price - t.fees - t.slippage
  let new_cash := P.cash + proceeds
  match P.get_position ticker with
  | some pos =>
      if pos.side = PositionSide.short then
        (pos.add_shares t.quantity t.effective_price).map (fun np =>
          { P with cash := new_cash, positions := insertPos P.positions ticker np })
      else
        .error "Cannot short over an existing long position"
  | none =>
      (Position.mkE ticker PositionSide.short t.quantity t.effective_price t.price).map
        (fun np =>
          { P with cash := new_cash, positions := insertPos P.positions ticker np })

/-- `_execute_cover`: close/reduce a short position; pays `total_cost`. -/
def Portfolio.execute_cover (P : Portfolio) (t : Trade) : Except String Portfolio :=
  let ticker := pyUpper t.ticker
  match P.get_position ticker with
  | none => .error "No short position to cover"
  | some pos =>
      if pos.side ≠ PositionSide.short then
        .error "No short position to cover"
      else if t.quantity > pos.quantity then
        .error "Cannot cover more shares than held"
      else if t.total_cost > P.cash then
        .error "Insufficient cash to cover"
      else
        (pos.remove_shares t.quantity).map (fun r =>
          let new_positions :=
            match r.1 with
            | some rp => insertPos P.positions ticker (rp.update_price t.price)
            | none => erasePos P.positions ticker
          { P with
            cash := P.cash - t.total_cost,
            positions := new_positions,
            realized_pnl := P.realized_pnl + r.2 })

/-- `apply_trade`: dispatch on the trade action. -/
def Portfolio.apply_trade (P : Portfolio) (t : Trade) : Except String Portfolio :=
  match t.action with
  | TradeAction.buy => P.execute_buy t
  | TradeAction.sell => P.execute_sell t
  | TradeAction.short => P.execute_short t
  | TradeAction.cover => P.execute_cover t

/-- `can_execute_trade`: side-effect-free precondition check mirroring the
raise branches of the execute functions (the enclosing `try/except` of the
source can never fire: none of the checks below throws). -/
def Portfolio.can_execute_trade (P : Portfolio) (t : Trade) : Bool × String :=
  let ticker := pyUpper t.ticker
  match t.action with
  | TradeAction.buy =>
      if t.total_cost > P.cash then
        (false, "Insufficient cash")
      else
        match P.get_position ticker with
        | some pos =>
            if pos.side = PositionSide.short then
              (false, "Cannot buy: short position exists")
            else (true, "")
        | none => (true, "")
  | TradeAction.sell =>
      match P.get_position ticker with
      | none => (false, "No long position")
      | some pos =>
          if pos.side ≠ PositionSide.long then
            (false, "No long position")
          else if t.quantity > pos.quantity then
            (false, "Insufficient shares")
          else (true, "")
  | TradeAction.short =>
      match P.get_position ticker with
      | some pos =>
          if pos.side = PositionSide.long then
            (false, "Cannot short: long position exists")
          else (true, "")
      | none => (true, "")
  | TradeAction.cover =>
      match P.get_position ticker with
      | none => (false, "No short position")
      | some pos =>
          if pos.side ≠ PositionSide.short then
            (false, "No short position")
          else if t.quantity > pos.quantity then
            (false, "Insufficient shares")
          else if t.total_cost > P.cash then
            (false, "Insufficient cash to cover")
          else (true, "")

/-- The positions of a pydantic-constructible portfolio all satisfy the
`Position` invariant. -/
def Portfolio.Valid (P : Portfolio) : Prop :=
  ∀ k p, (k, p) ∈ P.positions → Position.Valid p

/-! ## Backtesting engine (`engine.py`)

The `Signal` class itself is not part of the copied source (only its callers
are); its fields are modelled from the spec.  Market data is abstracted to the
per-day close-price dictionary the engine extracts from it, and the strategy
collaborator to a function of the day index (standing for the date and the
point-in-time view, which determine each other) and the current portfolio. -/

/-- Modelled from the spec: the `Signal` record consumed from the strategy
collaborator (its class is absent from the copied source).  Per spec §3 the
core uses only ticker, action, quantity and an "is actionable" predicate; the
predicate is therefore an abstract boolean field.  `confidence`/`reasoning`
feed only trade metadata, which is omitted. -/
structure Signal where
  ticker : String
  action : String
  quantity : ℚ
  actionable : Bool

/-- Backtest configuration (`BacktestConfig` in `engine.py`). -/
structure BacktestConfig where
  initial_capital : ℚ
  commission_bps : ℚ
  slippage_bps : ℚ
  rebalance_frequency : ℕ

/-- The close prices of one trading day, per ticker (as extracted by
`_get_current_prices`). -/
structure DayData where
  prices : List (String × ℚ)

/-- The engine's `action_map` from signal action strings to trade actions. -/
def actionMap : String → Option TradeAction
  | "buy" => some TradeAction.buy
  | "sell" => some TradeAction.sell
  | "short" => some TradeAction.short
  | "cover" => some TradeAction.cover
  | _ => none

/-- `_signal_to_trade`: `none` when the ticker has no price for the day or the
action string is unknown; otherwise the built trade (whose pydantic
construction may itself fail, hence the inner `Except`). -/
def signalToTrade (cfg : BacktestConfig) (sig : Signal) (prices : List (String × ℚ)) :
    Option (Except String Trade) :=
  match prices.lookup sig.ticker with
  | none => none
  | some price =>
      match actionMap sig.action with
      | none => none
      | some act =>
          some ((((TradeBuilder.create sig.ticker act sig.quantity price).with_commission_bps
            cfg.commission_bps).with_slippage_bps cfg.slippage_bps).build)

/-- Mutable engine state threaded through the day loop.  `invoked` records the
day indices at which `strategy.generate_signals` was called (pure
instrumentation of the control flow; the source has no such list). -/
structure EngineState where
  portfolio : Portfolio
  executed_trades : List Trade
  snapshots : List ℚ
  invoked : List ℕ

/-- The per-signal execution loop of `BacktestEngine.run`: for each actionable
signal, build a trade; when `can_execute_trade` answers true, apply it and
append it to the trade log, otherwise skip it and continue.  An exception
from building or applying propagates (aborting the run). -/
def execSignals (cfg : BacktestConfig) (p : Portfolio) (log : List Trade) :
    List Signal → List (String × ℚ) → Except String (Portfolio × List Trade)
  | [], _ => .ok (p, log)
  | sig :: rest, prices =>
      if sig.actionable then
        match signalToTrade cfg sig prices with
        | none => execSignals cfg p log rest prices
        | some (.error e) => .error e
        | some (.ok t) =>
            if (p.can_execute_trade t).1 then
              match p.apply_trade t with
              | .error e => .error e
              | .ok p2 => execSignals cfg p2 (log ++ [t]) rest prices
            else
              execSignals cfg p log rest prices
      else
        execSignals cfg p log rest prices

/-- One iteration of the day loop of `BacktestEngine.run` at day index `i`:
update prices, invoke the strategy when `i % rebalance_frequency = 0`,
execute its signals, and record a snapshot (reduced here to the total value;
no claim concerns the other snapshot fields). -/
def stepDay (cfg : BacktestConfig) (strategy : ℕ → Portfolio → List Signal)
    (st : EngineState) (i : ℕ) (day : DayData) : Except String EngineState :=
  let p1 := st.portfolio.update_prices day.prices
  if i % cfg.rebalance_frequency = 0 then
    let signals := strategy i p1
    match execSignals cfg p1 st.executed_trades signals day.prices with
    | .error e => .error e
    | .ok (p2, log2) =>
        .ok ⟨p2, log2, st.snapshots ++ [p2.total_value], st.invoked ++ [i]⟩
  else
    .ok ⟨p1, st.executed_trades, st.snapshots ++ [p1.total_value], st.invoked⟩

/-- The day loop from day index `i` over the remaining days. -/
def runFrom (cfg : BacktestConfig) (strategy : ℕ → Portfolio → List Signal)
    (st : EngineState) (i : ℕ) : List DayData → Except String EngineState
  | [] => .ok st
  | day :: rest =>
      match stepDay cfg strategy st i day with
      | .error e => .error e
      | .ok st2 => runFrom cfg strategy st2 (i + 1) rest

/-- `BacktestEngine.run`: fails when there are no trading days, otherwise
folds the day loop from a fresh portfolio. -/
def runEngine (cfg : BacktestConfig) (strategy : ℕ → Portfolio → List Signal)
    (days : List DayData) : Except String EngineState :=
  if days.isEmpty then
    .error "No trading days available in market data"
  else
    runFrom cfg strategy ⟨Portfolio.create cfg.initial_capital, [], [], []⟩ 0 days

/-! ## Performance metrics (`metrics.py`)

The float arithmetic of the source is modelled by exact rational arithmetic.
A result is a `MetricValue`: a finite rational, the positive-infinity
sentinel, or NaN (which numpy produces for the sample standard deviation of a
single value with `ddof=1`).  The square root used for annualization and the
real power used for CAGR do not stay inside ℚ; they are passed as function
parameters `sq`/`pw`, constrained in theorems only by properties true of the
real (and IEEE) operations, and placed only in branches whose numeric value
no claim constrains. -/

/-- A float result of the metrics module. -/
inductive MetricValue where
  | fin (x : ℚ)
  | posInf
  | nan
deriving DecidableEq, Repr

/-- Simple day-over-day percentage returns
(`np.diff(values) / values[:-1]`). -/
def dailyReturns : List ℚ → List ℚ
  | v0 :: v1 :: rest => (v1 - v0) / v0 :: dailyReturns (v1 :: rest)
  | _ => []

/-- Sample mean of a list. -/
def sampleMean (xs : List ℚ) : ℚ := xs.sum / xs.length

/-- Sample variance with the `N − 1` denominator (`ddof=1`).  numpy returns
NaN (modelled as `none`) when fewer than two values are given. -/
def sampleVariance (xs : List ℚ) : Option ℚ :=
  if xs.length < 2 then none
  else
    let m := sampleMean xs
    some ((xs.map (fun x => (x - m) * (x - m))).sum / (xs.length - 1))

/-- `total_return = (last − initial) / initial`. -/
def totalReturn (values : List ℚ) (initial : ℚ) : ℚ :=
  match values.getLast? with
  | none => 0
  | some last => (last - initial) / initial

/-- `annualized_return` (CAGR); `pw` stands for the real power function
`fun b e => b ^ e`. -/
def annualizedReturn (pw : ℚ → ℚ → ℚ) (values : List ℚ) (initial : ℚ) : ℚ :=
  if values.length < 2 then 0
  else
    let tr := totalReturn values initial
    let years : ℚ := (values.length - 1 : ℚ) / 252
    if years ≤ 0 then 0
    else pw (1 + tr) (1 / years) - 1

/-- `sortino_ratio`; `sq` stands for the real square root. -/
def sortino (sq : ℚ → ℚ) (pw : ℚ → ℚ → ℚ) (values : List ℚ) (initial rf : ℚ) :
    MetricValue :=
  let rets := dailyReturns values
  if rets.length = 0 then .fin 0
  else
    let negative_returns := rets.filter (fun r => r < 0)
    if negative_returns.length = 0 then .posInf
    else
      match sampleVariance negative_returns with
      | none => .nan
      | some v =>
          let downside_vol_ann := sq v * sq 252
          if downside_vol_ann = 0 then .fin 0
          else .fin ((annualizedReturn pw values initial - rf) / downside_vol_ann)

/-- Running maximum from a given seed. -/
def cummaxFrom (m : ℚ) : List ℚ → List ℚ
  | [] => []
  | v :: rest => max m v :: cummaxFrom (max m v) rest

/-- `np.maximum.accumulate`. -/
def cummax : List ℚ → List ℚ
  | [] => []
  | v :: rest => v :: cummaxFrom v rest

/-- `max_drawdown`: most negative of the relative drawdowns from the running
maximum; `0` with fewer than two values. -/
def maxDrawdown (values : List ℚ) : ℚ :=
  if values.length < 2 then 0
  else
    match List.zipWith (fun v m => (v - m) / m) values (cummax values) with
    | [] => 0
    | d :: ds => ds.foldl min d

/-- `calmar_ratio = annualized return / |max drawdown|`, positive infinity
when the drawdown is exactly zero. -/
def calmar (pw : ℚ → ℚ → ℚ) (values : List ℚ) (initial : ℚ) : MetricValue :=
  let mdd := |maxDrawdown values|
  if mdd = 0 then .posInf
  else .fin (annualizedReturn pw values initial / mdd)

/-! ## Helper lemmas -/

theorem mkE_ok {ticker : String} {side : PositionSide} {q a c : ℚ}
    (h1 : 1 ≤ ticker.length) (h2 : ticker.length ≤ 10)
    (h3 : 0 < q) (h4 : 0 < a) (h5 : 0 ≤ c) :
    Position.mkE ticker side q a c = .ok ⟨pyStrip (pyUpper ticker), side, q, a, c⟩ := by
  unfold Position.mkE
  rw [if_pos ⟨h1, h2, h3, h4, h5⟩]

theorem Position.Valid.norm {p : Position} (hp : p.Valid) :
    pyStrip (pyUpper p.ticker) = p.ticker := by
  rw [hp.2.2.1, hp.2.2.2.1]

/-- Checked re-construction of a valid position's data returns the literal
field update. -/
theorem mkE_ok_valid {p : Position} (hp : p.Valid) {side : PositionSide} {q a c : ℚ}
    (h3 : 0 < q) (h4 : 0 < a) (h5 : 0 ≤ c) :
    Position.mkE p.ticker side q a c = .ok ⟨p.ticker, side, q, a, c⟩ := by
  rw [mkE_ok hp.1 hp.2.1 h3 h4 h5, hp.norm]

theorem lookup_rel {α : Type} {l : List (String × α)} {k : String} {v : α}
    (h : l.lookup k = some v) : (k, v) ∈ l := by
  induction l with
  | nil => simp [List.lookup] at h
  | cons kv rest ih =>
      rw [List.lookup] at h
      rcases hbeq : k == kv.1 with _ | _
      · rw [hbeq] at h
        exact List.mem_cons_of_mem _ (ih h)
      · rw [hbeq] at h
        cases h
        have : k = kv.1 := eq_of_beq hbeq
        subst this
        exact List.mem_cons_self _ _

theorem get_position_valid {P : Portfolio} (hP : P.Valid) {s : String} {p : Position}
    (h : P.get_position s = some p) : p.Valid :=
  hP _ _ (lookup_rel h)

theorem mem_insertPos {l : List (String × Position)} {k : String} {v : Position}
    {kv : String × Position} (h : kv ∈ insertPos l k v) :
    kv ∈ l ∨ kv = (k, v) := by
  induction l with
  | nil => simp only [insertPos, List.mem_singleton] at h; exact Or.inr h
  | cons hd rest ih =>
      obtain ⟨k', v'⟩ := hd
      rw [insertPos] at h
      by_cases he : k' = k
      · rw [if_pos he] at h
        rcases List.mem_cons.1 h with h | h
        · exact Or.inr h
        · exact Or.inl (List.mem_cons_of_mem _ h)
      · rw [if_neg he] at h
        rcases List.mem_cons.1 h with h | h
        · exact Or.inl (h ▸ List.mem_cons_self _ _)
        · rcases ih h with h | h
          · exact Or.inl (List.mem_cons_of_mem _ h)
          · exact Or.inr h

theorem mem_erasePos {l : List (String × Position)} {k : String}
    {kv : String × Position} (h : kv ∈ erasePos l k) : kv ∈ l := by
  induction l with
  | nil => rw [erasePos] at h; exact h
  | cons hd rest ih =>
      obtain ⟨k', v'⟩ := hd
      rw [erasePos] at h
      by_cases he : k' = k
      · rw [if_pos he] at h
        exact List.mem_cons_of_mem _ h
      · rw [if_neg he] at h
        rcases List.mem_cons.1 h with h | h
        · exact h ▸ List.mem_cons_self _ _
        · exact List.mem_cons_of_mem _ (ih h)

/-- Behavior of `remove_shares` on a valid position when enough shares are
held (shared helper). -/
theorem remove_shares_ok {p : Position} {q : ℚ} (hp : p.Valid) (_hq : 0 < q)
    (hle : q ≤ p.quantity) :
    p.remove_shares q =
      .ok ((if q < p.quantity then some { p with quantity := p.quantity - q } else none),
        if p.side = PositionSide.long then (p.current_price - p.avg_price) * q
        else (p.avg_price - p.current_price) * q) := by
  rw [Position.remove_shares, if_neg (not_lt.2 hle)]
  by_cases hfull : p.quantity - q = 0
  · have hnlt : ¬ q < p.quantity := by
      intro hlt
      rw [sub_eq_zero] at hfull
      exact absurd hfull (ne_of_gt hlt)
    rw [if_pos hfull, if_neg hnlt]
  · have hlt : q < p.quantity := lt_of_le_of_ne hle (by
      intro he
      exact hfull (by rw [he, sub_self]))
    rw [if_neg hfull,
      mkE_ok_valid hp (by linarith) hp.2.2.2.2.2.1 hp.2.2.2.2.2.2]
    simp only [Except.map, if_pos hlt]

/-! ## Claims -/

/-- Claim C5: for every trade, `total_cost = quantity × price + fees +
slippage`; `effective_price` is `price + (fees+slippage)/quantity` for the
opening actions (buy, short) and `price − (fees+slippage)/quantity` for the
closing actions (sell, cover); and the builder's basis-point methods add
exactly `gross × bps / 10000` to fees respectively slippage, leaving the
other component unchanged. -/
theorem C5_trade_cost_model :
    (∀ t : Trade,
      t.total_cost = t.quantity * t.price + t.fees + t.slippage ∧
      ((t.action = TradeAction.buy ∨ t.action = TradeAction.short) →
        t.effective_price = t.price + (t.fees + t.slippage) / t.quantity) ∧
      ((t.action = TradeAction.sell ∨ t.action = TradeAction.cover) →
        t.effective_price = t.price - (t.fees + t.slippage) / t.quantity)) ∧
    (∀ (b : TradeBuilder) (bps : ℚ),
      (b.with_commission_bps bps).fees = b.fees + b.quantity * b.price * bps / 10000 ∧
      (b.with_commission_bps bps).slippage = b.slippage ∧
      (b.with_slippage_bps bps).slippage = b.slippage + b.quantity * b.price * bps / 10000 ∧
      (b.with_slippage_bps bps).fees = b.fees) := by
  refine ⟨fun t => ⟨rfl, fun h => ?_, fun h => ?_⟩,
    fun b bps => ⟨rfl, rfl, rfl, rfl⟩⟩
  · have : t.is_opening = true := by
      rcases h with h | h <;> simp [Trade.is_opening, h]
    simp [Trade.effective_price, this]
  · have : t.is_opening = false := by
      rcases h with h | h <;> simp [Trade.is_opening, h]
    simp [Trade.effective_price, this]

/-- Witness for C5 at a concrete buy trade and builder. -/
theorem C5_trade_cost_model_witness :
    (⟨"A", TradeAction.buy, 2, 5, 1, 1⟩ : Trade).effective_price = 5 + (1 + 1) / 2 ∧
    ((TradeBuilder.create "A" TradeAction.buy 2 5).with_commission_bps 5).fees =
      0 + 2 * 5 * 5 / 10000 :=
  ⟨(C5_trade_cost_model.1 ⟨"A", TradeAction.buy, 2, 5, 1, 1⟩).2.1 (Or.inl rfl),
    (C5_trade_cost_model.2 (TradeBuilder.create "A" TradeAction.buy 2 5) 5).1⟩

/-- The trade that the C4 scenario's builder chain actually produces. -/
def c4trade : Trade := ⟨"AAPL", TradeAction.buy, 100, 150, 15 / 2, 3⟩

/-- Counterexample to C4 as stated: buying 100 shares at 150.00 has gross
value 15000 (not 150000), so 5 bps commission is 7.50, not 75.00, and the
total cost is 15010.50, not 150105.00. -/
theorem C4_counterexample :
    (((TradeBuilder.create "AAPL" TradeAction.buy 100 150).with_commission_bps
        5).with_slippage_bps 2).build = .ok c4trade ∧
    c4trade.fees ≠ 75 ∧ c4trade.slippage ≠ 30 ∧ c4trade.total_cost ≠ 150105 ∧
    c4trade.effective_price ≠ 15105 / 100 := by
  refine ⟨?_, by norm_num [c4trade], by norm_num [c4trade],
    by norm_num [c4trade, Trade.total_cost, Trade.gross_value],
    by norm_num [c4trade, Trade.effective_price, Trade.is_opening]⟩
  rw [TradeBuilder.build, if_pos ⟨by decide, by decide,
    by norm_num [TradeBuilder.create, TradeBuilder.with_commission_bps,
      TradeBuilder.with_slippage_bps],
    by norm_num [TradeBuilder.create, TradeBuilder.with_commission_bps,
      TradeBuilder.with_slippage_bps],
    by norm_num [TradeBuilder.create, TradeBuilder.with_commission_bps,
      TradeBuilder.with_slippage_bps],
    by norm_num [TradeBuilder.create, TradeBuilder.with_commission_bps,
      TradeBuilder.with_slippage_bps]⟩]
  simp only [Except.ok.injEq, Trade.mk.injEq, c4trade]
  refine ⟨by decide, rfl, rfl, rfl, ?_, ?_⟩ <;>
    norm_num [TradeBuilder.create, TradeBuilder.with_commission_bps,
      TradeBuilder.with_slippage_bps]

/-- The portfolio produced by applying the C4 trade to a fresh 100000
portfolio. -/
def c4result : Portfolio :=
  ⟨169979 / 2, [("AAPL", ⟨"AAPL", PositionSide.long, 100, 30021 / 200, 150⟩)], 0, 100000⟩

/-- Claim C4 (amended): a buy of 100 shares at 150.00 built with 5 bps
commission and 2 bps slippage has fees = 7.50, slippage = 3.00, total cost =
15010.50; applying it to a portfolio with sufficient cash decreases cash by
exactly that amount; the effective price is 150 + 10.50/100 = 150.105. -/
theorem C4_buy_scenario :
    (((TradeBuilder.create "AAPL" TradeAction.buy 100 150).with_commission_bps
        5).with_slippage_bps 2).build = .ok c4trade ∧
    c4trade.fees = 15 / 2 ∧ c4trade.slippage = 3 ∧
    c4trade.total_cost = 30021 / 2 ∧
    c4trade.effective_price = 150 + (30021 / 2 - 15000) / 100 ∧
    (Portfolio.create 100000).apply_trade c4trade = .ok c4result ∧
    c4result.cash = 100000 - c4trade.total_cost := by
  refine ⟨C4_counterexample.1, rfl, rfl,
    by norm_num [c4trade, Trade.total_cost, Trade.gross_value],
    by norm_num [c4trade, Trade.effective_price, Trade.is_opening], ?_,
    by norm_num [c4result, c4trade, Trade.total_cost, Trade.gross_value]⟩
  have heff : c4trade.effective_price = 30021 / 200 := by
    norm_num [c4trade, Trade.effective_price, Trade.is_opening]
  have hcost : c4trade.total_cost = 30021 / 2 := by
    norm_num [c4trade, Trade.total_cost, Trade.gross_value]
  show (Portfolio.create 100000).execute_buy c4trade = .ok c4result
  rw [Portfolio.execute_buy]
  rw [if_neg (by rw [hcost]; norm_num [Portfolio.create])]
  have hget : (Portfolio.create 100000).get_position (pyUpper c4trade.ticker) = none := rfl
  rw [hget, Position.mkE, if_pos ⟨by decide, by decide, by norm_num [c4trade],
    by rw [heff]; norm_num, by norm_num [c4trade]⟩]
  simp only [Except.map, Except.ok.injEq]
  have h1 : pyUpper c4trade.ticker = "AAPL" := by decide
  have h2 : pyStrip (pyUpper "AAPL") = "AAPL" := by decide
  rw [h1, h2, hcost, heff]
  simp only [c4trade, c4result, Portfolio.create, insertPos, Portfolio.mk.injEq,
    List.cons.injEq, Prod.mk.injEq, Position.mk.injEq]
  norm_num

/-- Claim C6: `remove_shares` fails exactly when the removed quantity exceeds
the held quantity; otherwise it returns the realized profit/loss
(`(mark − cost)·q` long, `(cost − mark)·q` short) together with the remaining
position (same average price and mark, quantity reduced) when `q <
p.quantity`, or `none` on full closure; the realized value is returned in
both cases. -/
theorem C6_remove_shares (p : Position) (q : ℚ) (hp : p.Valid) (hq : 0 < q) :
    ((∃ e, p.remove_shares q = .error e) ↔ q > p.quantity) ∧
    (q ≤ p.quantity →
      p.remove_shares q =
        .ok ((if q < p.quantity then some { p with quantity := p.quantity - q } else none),
          if p.side = PositionSide.long then (p.current_price - p.avg_price) * q
          else (p.avg_price - p.current_price) * q)) := by
  constructor
  · constructor
    · rintro ⟨e, he⟩
      by_contra hle
      rw [remove_shares_ok hp hq (not_lt.1 hle)] at he
      cases he
    · intro hgt
      exact ⟨_, by rw [Position.remove_shares, if_pos hgt]⟩
  · exact remove_shares_ok hp hq

/-- Witness for C6: removing 1 share from a 2-share long position held at
average 10 and marked 12 realizes 2 and leaves 1 share. -/
theorem C6_remove_shares_witness :
    Position.Valid ⟨"A", PositionSide.long, 2, 10, 12⟩ ∧ (0 : ℚ) < 1 ∧
    (⟨"A", PositionSide.long, 2, 10, 12⟩ : Position).remove_shares 1 =
      .ok (some ⟨"A", PositionSide.long, 1, 10, 12⟩, 2) := by
  refine ⟨by decide, by norm_num, ?_⟩
  have h := (C6_remove_shares ⟨"A", PositionSide.long, 2, 10, 12⟩ 1
    (by decide) (by norm_num)).2 (by norm_num)
  rw [h]
  norm_num

/-- The concrete position for the C3 counterexample. -/
def c3pos : Position := ⟨"A", PositionSide.long, 1, 10, 10⟩

/-- Counterexample to C3 as stated: on a long position of 1 share at average
price 10 marked at 10, `add_shares 1 20` followed by `remove_shares 1`
realizes −5, not 0: the realized profit/loss is computed against the
position's mark price, not against the price just paid. -/
theorem C3_counterexample :
    Position.Valid c3pos ∧ (0 : ℚ) < 1 ∧ (0 : ℚ) < 20 ∧
    c3pos.add_shares 1 20 = .ok ⟨"A", PositionSide.long, 2, 15, 10⟩ ∧
    (⟨"A", PositionSide.long, 2, 15, 10⟩ : Position).remove_shares 1 =
      .ok (some ⟨"A", PositionSide.long, 1, 15, 10⟩, -5) ∧
    (-5 : ℚ) ≠ 0 := by
  refine ⟨by decide, by norm_num, by norm_num, ?_, ?_, by norm_num⟩
  · rw [Position.add_shares, Position.mkE, if_pos ⟨by decide, by decide,
      by norm_num [c3pos], by norm_num [c3pos], by norm_num [c3pos]⟩]
    have h2 : pyStrip (pyUpper c3pos.ticker) = "A" := by decide
    rw [h2]
    simp only [c3pos, Except.ok.injEq, Position.mk.injEq]
    norm_num
  · have h := @remove_shares_ok ⟨"A", PositionSide.long, 2, 15, 10⟩ 1
      (by decide) (by norm_num) (by norm_num)
    rw [h]
    simp only [Except.ok.injEq, Prod.mk.injEq, Option.some.injEq, Position.mk.injEq]
    norm_num

/-- Claim C3 (amended): on a live position `p`, `add_shares q pr` followed by
`remove_shares q` realizes `±(current_price − newAvg)·q` where `newAvg` is
the post-add weighted average `(p.quantity·p.avg_price + q·pr)/(p.quantity +
q)` (positive sign for long, negative for short); in particular the realized
profit/loss is zero when the added price equals both the position's average
and its current mark price. -/
theorem C3_add_remove_pnl (p : Position) (q pr : ℚ) (hp : p.Valid)
    (hq : 0 < q) (hpr : 0 < pr) :
    ∃ p2, p.add_shares q pr = .ok p2 ∧
      ∃ r, p2.remove_shares q = .ok r ∧
        r.2 = (if p.side = PositionSide.long then
                p.current_price - (p.quantity * p.avg_price + q * pr) / (p.quantity + q)
              else
                (p.quantity * p.avg_price + q * pr) / (p.quantity + q) - p.current_price) * q ∧
        (p.current_price = p.avg_price → p.avg_price = pr → r.2 = 0) := by
  have hqty := hp.2.2.2.2.1
  have havg := hp.2.2.2.2.2.1
  have hcp := hp.2.2.2.2.2.2
  have hsum : 0 < p.quantity + q := by linarith
  have havg2 : 0 < (p.quantity * p.avg_price + q * pr) / (p.quantity + q) := by
    apply div_pos _ hsum
    have := mul_pos hqty havg
    have := mul_pos hq hpr
    linarith
  refine ⟨⟨p.ticker, p.side, p.quantity + q,
    (p.quantity * p.avg_price + q * pr) / (p.quantity + q), p.current_price⟩, ?_, ?_⟩
  · rw [Position.add_shares, mkE_ok_valid hp hsum havg2 hcp]
  · have hlt : q < p.quantity + q := by linarith
    have hvalid2 : Position.Valid ⟨p.ticker, p.side, p.quantity + q,
        (p.quantity * p.avg_price + q * pr) / (p.quantity + q), p.current_price⟩ :=
      ⟨hp.1, hp.2.1, hp.2.2.1, hp.2.2.2.1, hsum, havg2, hcp⟩
    have h := remove_shares_ok hvalid2 hq (le_of_lt hlt)
    refine ⟨_, h, ?_, ?_⟩
    · by_cases hs : p.side = PositionSide.long <;>
        simp only [hs, if_true, if_false] <;> ring
    · intro h1 h2
      have he : (p.quantity * p.avg_price + q * pr) / (p.quantity + q) = p.current_price := by
        rw [h1, h2, div_eq_iff (ne_of_gt hsum)]
        ring
      by_cases hs : p.side = PositionSide.long <;>
        simp only [hs, if_true, if_false, he] <;> ring

/-! ## Helper lemmas for `apply_trade` success (claims C1 and C10) -/

theorem one_le_length_of_ne {s : String} (h : s ≠ "") : 1 ≤ s.length := by
  rcases s with ⟨l⟩
  cases l with
  | nil => exact absurd (by decide) h
  | cons c cs =>
      show 1 ≤ (String.mk (c :: cs)).data.length
      simp

theorem effective_price_pos {t : Trade} (ht : t.Valid) (hop : t.is_opening = true) :
    0 < t.effective_price := by
  rw [Trade.effective_price]
  simp only [hop, if_true]
  have hq := ht.2.2.2.1
  have hpr := ht.2.2.2.2.1
  have : 0 ≤ (t.fees + t.slippage) / t.quantity :=
    div_nonneg (by linarith [ht.2.2.2.2.2.1, ht.2.2.2.2.2.2]) hq.le
  linarith

theorem add_shares_ok {p : Position} {q pr : ℚ} (hp : p.Valid) (hq : 0 < q) (hpr : 0 < pr) :
    ∃ np, p.add_shares q pr = .ok np := by
  have hqty := hp.2.2.2.2.1
  have havg := hp.2.2.2.2.2.1
  have hsum : 0 < p.quantity + q := by linarith
  have havg2 : 0 < (p.quantity * p.avg_price + q * pr) / (p.quantity + q) := by
    apply div_pos _ hsum
    have := mul_pos hqty havg
    have := mul_pos hq hpr
    linarith
  exact ⟨_, by rw [Position.add_shares, mkE_ok_valid hp hsum havg2 hp.2.2.2.2.2.2]⟩

/-- `_execute_buy` succeeds when cash suffices and no short position blocks
the ticker (pre-conditions of `can_execute_trade` for buys), provided the
trade's normalized ticker is nonempty. -/
theorem execute_buy_ok {P : Portfolio} {t : Trade} (hP : P.Valid) (ht : t.Valid)
    (hact : t.action = TradeAction.buy) (hne : t.ticker ≠ "")
    (hc : ¬ t.total_cost > P.cash)
    (hside : ∀ pos, P.get_position (pyUpper t.ticker) = some pos →
      pos.side = PositionSide.long) :
    ∃ P2, P.execute_buy t = .ok P2 := by
  have hop : t.is_opening = true := by simp [Trade.is_opening, hact]
  have heff := effective_price_pos ht hop
  simp only [Portfolio.execute_buy]
  rw [if_neg hc]
  cases hg : P.get_position (pyUpper t.ticker) with
  | none =>
      simp only [hg]
      exact ⟨_, by rw [ht.2.1, mkE_ok (one_le_length_of_ne hne) ht.1 ht.2.2.2.1 heff
        ht.2.2.2.2.1.le]; rfl⟩
  | some pos =>
      simp only [hg, if_pos (hside pos hg)]
      obtain ⟨np, hnp⟩ := add_shares_ok (get_position_valid hP hg) ht.2.2.2.1 heff
      exact ⟨_, by rw [hnp]; rfl⟩

/-- `_execute_short` succeeds when no long position blocks the ticker,
provided the trade's normalized ticker is nonempty. -/
theorem execute_short_ok {P : Portfolio} {t : Trade} (hP : P.Valid) (ht : t.Valid)
    (hact : t.action = TradeAction.short) (hne : t.ticker ≠ "")
    (hside : ∀ pos, P.get_position (pyUpper t.ticker) = some pos →
      pos.side = PositionSide.short) :
    ∃ P2, P.execute_short t = .ok P2 := by
  have hop : t.is_opening = true := by simp [Trade.is_opening, hact]
  have heff := effective_price_pos ht hop
  simp only [Portfolio.execute_short]
  cases hg : P.get_position (pyUpper t.ticker) with
  | none =>
      simp only [hg]
      exact ⟨_, by rw [ht.2.1, mkE_ok (one_le_length_of_ne hne) ht.1 ht.2.2.2.1 heff
        ht.2.2.2.2.1.le]; rfl⟩
  | some pos =>
      simp only [hg, if_pos (hside pos hg)]
      obtain ⟨np, hnp⟩ := add_shares_ok (get_position_valid hP hg) ht.2.2.2.1 heff
      exact ⟨_, by rw [hnp]; rfl⟩

/-- `_execute_sell` succeeds on an existing long position with enough
shares. -/
theorem execute_sell_ok {P : Portfolio} {t : Trade} {pos : Position}
    (hP : P.Valid) (ht : t.Valid)
    (hg : P.get_position (pyUpper t.ticker) = some pos)
    (hside : pos.side = PositionSide.long) (hle : t.quantity ≤ pos.quantity) :
    ∃ P2, P.execute_sell t = .ok P2 := by
  simp only [Portfolio.execute_sell, hg]
  rw [if_neg (by simp [hside]), if_neg (not_lt.2 hle),
    remove_shares_ok (get_position_valid hP hg) ht.2.2.2.1 hle]
  exact ⟨_, rfl⟩

/-- `_execute_cover` succeeds on an existing short position with enough
shares and enough cash. -/
theorem execute_cover_ok {P : Portfolio} {t : Trade} {pos : Position}
    (hP : P.Valid) (ht : t.Valid)
    (hg : P.get_position (pyUpper t.ticker) = some pos)
    (hside : pos.side = PositionSide.short) (hle : t.quantity ≤ pos.quantity)
    (hc : ¬ t.total_cost > P.cash) :
    ∃ P2, P.execute_cover t = .ok P2 := by
  simp only [Portfolio.execute_cover, hg]
  rw [if_neg (by simp [hside]), if_neg (not_lt.2 hle), if_neg hc,
    remove_shares_ok (get_position_valid hP hg) ht.2.2.2.1 hle]
  exact ⟨_, rfl⟩

/-- The counterexample trade for C1: pydantic-constructible from the raw
ticker `" "` (three spaces), whose stored normalized ticker is empty. -/
def c1trade : Trade := ⟨"", TradeAction.buy, 1, 1, 0, 0⟩

/-- Counterexample to C1 as stated: for the empty-normalized-ticker buy
`c1trade` (raw ticker `" "`, which passes the `min_length=1` constraint and
is stripped to `""` by the after-validator), `can_execute_trade` answers true
but `apply_trade` raises from the `Position` constructor, whose `min_length`
check rejects the empty ticker. -/
theorem C1_counterexample :
    Trade.Valid c1trade ∧ Portfolio.Valid (Portfolio.create 1000) ∧
    ((Portfolio.create 1000).can_execute_trade c1trade).1 = true ∧
    (Portfolio.create 1000).apply_trade c1trade = .error "Position validation failed" := by
  refine ⟨?_, ?_, ?_, ?_⟩
  · refine ⟨by decide, by decide, by decide, by norm_num [c1trade], by norm_num [c1trade],
      by norm_num [c1trade], by norm_num [c1trade]⟩
  · intro k p h
    simp [Portfolio.create] at h
  · have hmoney : ¬ ((⟨"", TradeAction.buy, 1, 1, 0, 0⟩ : Trade).total_cost >
        (Portfolio.create 1000).cash) := by
      norm_num [Trade.total_cost, Trade.gross_value, Portfolio.create]
    simp only [Portfolio.can_execute_trade, c1trade]
    rw [if_neg hmoney]
    rfl
  · have hmoney : ¬ ((⟨"", TradeAction.buy, 1, 1, 0, 0⟩ : Trade).total_cost >
        (Portfolio.create 1000).cash) := by
      norm_num [Trade.total_cost, Trade.gross_value, Portfolio.create]
    simp only [Portfolio.apply_trade, c1trade, Portfolio.execute_buy]
    rw [if_neg hmoney]
    have hg : (Portfolio.create 1000).get_position (pyUpper "") = none := rfl
    simp only [hg]
    rw [Position.mkE, if_neg (fun hcond => absurd hcond.1 (by decide))]
    rfl

/-- Claim C1 (amended): for every pydantic-constructible portfolio and trade
whose stored (normalized) ticker is nonempty, a true answer from
`can_execute_trade` guarantees that `apply_trade` returns a new portfolio:
none of the raise branches of the four execute helpers, of
`Position.remove_shares`, or of the `Position` constructor is reachable. -/
theorem C1_can_execute_sound (P : Portfolio) (t : Trade)
    (hP : P.Valid) (ht : t.Valid) (hne : t.ticker ≠ "")
    (hok : (P.can_execute_trade t).1 = true) :
    ∃ P2, P.apply_trade t = .ok P2 := by
  rw [Portfolio.can_execute_trade] at hok
  rw [Portfolio.apply_trade]
  cases hact : t.action with
  | buy =>
      simp only [hact] at hok
      by_cases hc : t.total_cost > P.cash
      · rw [if_pos hc] at hok
        simp at hok
      · rw [if_neg hc] at hok
        refine execute_buy_ok hP ht hact hne hc (fun pos hg => ?_)
        simp only [hg] at hok
        cases hps : pos.side with
        | long => rfl
        | short => rw [if_pos hps] at hok; simp at hok
  | sell =>
      simp only [hact] at hok
      cases hg : P.get_position (pyUpper t.ticker) with
      | none => simp only [hg] at hok; simp at hok
      | some pos =>
          simp only [hg] at hok
          cases hps : pos.side with
          | short =>
              rw [if_pos (by simp [hps])] at hok
              simp at hok
          | long =>
              rw [if_neg (by simp [hps])] at hok
              by_cases hqty : t.quantity > pos.quantity
              · rw [if_pos hqty] at hok; simp at hok
              · exact execute_sell_ok hP ht hg hps (not_lt.1 hqty)
  | short =>
      simp only [hact] at hok
      refine execute_short_ok hP ht hact hne (fun pos hg => ?_)
      simp only [hg] at hok
      cases hps : pos.side with
      | short => rfl
      | long => rw [if_pos hps] at hok; simp at hok
  | cover =>
      simp only [hact] at hok
      cases hg : P.get_position (pyUpper t.ticker) with
      | none => simp only [hg] at hok; simp at hok
      | some pos =>
          simp only [hg] at hok
          cases hps : pos.side with
          | long =>
              rw [if_pos (by simp [hps])] at hok
              simp at hok
          | short =>
              rw [if_neg (by simp [hps])] at hok
              by_cases hqty : t.quantity > pos.quantity
              · rw [if_pos hqty] at hok; simp at hok
              · rw [if_neg hqty] at hok
                by_cases hc : t.total_cost > P.cash
                · rw [if_pos hc] at hok; simp at hok
                · exact execute_cover_ok hP ht hg hps (not_lt.1 hqty) hc

/-- Witness for C1 at a concrete buy on a fresh portfolio. -/
theorem C1_can_execute_sound_witness :
    Trade.Valid ⟨"A", TradeAction.buy, 1, 2, 0, 0⟩ ∧
    (((Portfolio.create 10).can_execute_trade ⟨"A", TradeAction.buy, 1, 2, 0, 0⟩).1 = true) ∧
    ∃ P2, (Portfolio.create 10).apply_trade ⟨"A", TradeAction.buy, 1, 2, 0, 0⟩ = .ok P2 := by
  have hmoney : ¬ ((⟨"A", TradeAction.buy, 1, 2, 0, 0⟩ : Trade).total_cost >
      (Portfolio.create 10).cash) := by
    norm_num [Trade.total_cost, Trade.gross_value, Portfolio.create]
  have hok : ((Portfolio.create 10).can_execute_trade ⟨"A", TradeAction.buy, 1, 2, 0, 0⟩).1
      = true := by
    simp only [Portfolio.can_execute_trade]
    rw [if_neg hmoney]
    rfl
  refine ⟨⟨by decide, by decide, by decide, by norm_num, by norm_num, by norm_num,
    by norm_num⟩, hok, ?_⟩
  exact C1_can_execute_sound (Portfolio.create 10) ⟨"A", TradeAction.buy, 1, 2, 0, 0⟩
    (fun k p h => by simp [Portfolio.create] at h)
    ⟨by decide, by decide, by decide, by norm_num, by norm_num, by norm_num, by norm_num⟩
    (by decide) hok

/-! ## Inversion lemmas for successful executes -/

theorem except_map_ok {α β : Type} {f : α → β} {x : Except String α} {y : β}
    (h : Except.map f x = .ok y) : ∃ v, x = .ok v ∧ y = f v := by
  cases x with
  | ok v =>
      refine ⟨v, rfl, ?_⟩
      simpa [Except.map] using h.symm
  | error e => simp [Except.map] at h

theorem mkE_ok_inv {tk : String} {sd : PositionSide} {q a c : ℚ} {p : Position}
    (h : Position.mkE tk sd q a c = .ok p) :
    p.quantity = q ∧ p.avg_price = a ∧ p.current_price = c ∧ p.side = sd ∧
      0 < q ∧ 0 < a ∧ 0 ≤ c := by
  rw [Position.mkE] at h
  split_ifs at h with hcond
  cases h
  exact ⟨rfl, rfl, rfl, rfl, hcond.2.2.1, hcond.2.2.2.1, hcond.2.2.2.2⟩

theorem add_shares_inv {p : Position} {q pr : ℚ} {np : Position}
    (h : p.add_shares q pr = .ok np) : 0 < np.quantity := by
  simp only [Position.add_shares] at h
  exact (mkE_ok_inv h).1 ▸ (mkE_ok_inv h).2.2.2.2.1

theorem remove_shares_inv {p : Position} {q : ℚ} {r : Option Position × ℚ}
    (h : p.remove_shares q = .ok r) :
    ∀ np, r.1 = some np → 0 < np.quantity := by
  simp only [Position.remove_shares] at h
  by_cases hgt : q > p.quantity
  · rw [if_pos hgt] at h
    simp at h
  · rw [if_neg hgt] at h
    by_cases hzero : p.quantity - q = 0
    · rw [if_pos hzero] at h
      cases h
      intro np hnp
      simp at hnp
    · rw [if_neg hzero] at h
      obtain ⟨v, hv, hr⟩ := except_map_ok h
      subst hr
      intro np hnp
      have : v = np := by simpa using hnp
      rw [← this]
      exact (mkE_ok_inv hv).1 ▸ (mkE_ok_inv hv).2.2.2.2.1

theorem execute_buy_inv {P : Portfolio} {t : Trade} {P2 : Portfolio}
    (h : P.execute_buy t = .ok P2) :
    P2.cash = P.cash - t.total_cost ∧ t.total_cost ≤ P.cash ∧
      ∃ np, 0 < np.quantity ∧
        P2.positions = insertPos P.positions (pyUpper t.ticker) np := by
  simp only [Portfolio.execute_buy] at h
  split_ifs at h with hc
  cases hgp : P.get_position (pyUpper t.ticker) with
  | none =>
      simp only [hgp] at h
      obtain ⟨v, hv, hP2⟩ := except_map_ok h
      subst hP2
      exact ⟨rfl, not_lt.1 hc,
        ⟨v, (mkE_ok_inv hv).1 ▸ (mkE_ok_inv hv).2.2.2.2.1, rfl⟩⟩
  | some pos =>
      simp only [hgp] at h
      split_ifs at h with hside
      obtain ⟨v, hv, hP2⟩ := except_map_ok h
      subst hP2
      exact ⟨rfl, not_lt.1 hc, ⟨v, add_shares_inv hv, rfl⟩⟩

theorem execute_short_inv {P : Portfolio} {t : Trade} {P2 : Portfolio}
    (h : P.execute_short t = .ok P2) :
    P2.cash = P.cash + (t.quantity * t.price - t.fees - t.slippage) ∧
      ∃ np, 0 < np.quantity ∧
        P2.positions = insertPos P.positions (pyUpper t.ticker) np := by
  simp only [Portfolio.execute_short] at h
  cases hgp : P.get_position (pyUpper t.ticker) with
  | none =>
      simp only [hgp] at h
      obtain ⟨v, hv, hP2⟩ := except_map_ok h
      subst hP2
      exact ⟨rfl, ⟨v, (mkE_ok_inv hv).1 ▸ (mkE_ok_inv hv).2.2.2.2.1, rfl⟩⟩
  | some pos =>
      simp only [hgp] at h
      split_ifs at h with hside
      obtain ⟨v, hv, hP2⟩ := except_map_ok h
      subst hP2
      exact ⟨rfl, ⟨v, add_shares_inv hv, rfl⟩⟩

theorem execute_sell_inv {P : Portfolio} {t : Trade} {P2 : Portfolio}
    (h : P.execute_sell t = .ok P2) :
    P2.cash = P.cash + (t.quantity * t.price - t.fees - t.slippage) ∧
      (P2.positions = erasePos P.positions (pyUpper t.ticker) ∨
        ∃ np, 0 < np.quantity ∧
          P2.positions = insertPos P.positions (pyUpper t.ticker) np) := by
  simp only [Portfolio.execute_sell] at h
  cases hgp : P.get_position (pyUpper t.ticker) with
  | none => simp only [hgp] at h; simp at h
  | some pos =>
      simp only [hgp] at h
      split_ifs at h with hside hqty
      obtain ⟨r, hr, hP2⟩ := except_map_ok h
      subst hP2
      rcases r with ⟨rem | rp, realized⟩
      · exact ⟨rfl, Or.inl rfl⟩
      · exact ⟨rfl, Or.inr ⟨rp.update_price t.price,
          remove_shares_inv hr rp rfl, rfl⟩⟩

theorem execute_cover_inv {P : Portfolio} {t : Trade} {P2 : Portfolio}
    (h : P.execute_cover t = .ok P2) :
    P2.cash = P.cash - t.total_cost ∧ t.total_cost ≤ P.cash ∧
      (P2.positions = erasePos P.positions (pyUpper t.ticker) ∨
        ∃ np, 0 < np.quantity ∧
          P2.positions = insertPos P.positions (pyUpper t.ticker) np) := by
  simp only [Portfolio.execute_cover] at h
  cases hgp : P.get_position (pyUpper t.ticker) with
  | none => simp only [hgp] at h; simp at h
  | some pos =>
      simp only [hgp] at h
      split_ifs at h with hside hqty hcash
      obtain ⟨r, hr, hP2⟩ := except_map_ok h
      subst hP2
      rcases r with ⟨rem | rp, realized⟩
      · exact ⟨rfl, not_lt.1 hcash, Or.inl rfl⟩
      · exact ⟨rfl, not_lt.1 hcash, Or.inr ⟨rp.update_price t.price,
          remove_shares_inv hr rp rfl, rfl⟩⟩

/-- The counterexample trade for C10: a pydantic-constructible short whose
normalized ticker is empty (raw ticker `" "`). -/
def c10trade : Trade := ⟨"", TradeAction.short, 5, 3, 0, 0⟩

/-- Counterexample to C10 as stated: for the empty-normalized-ticker short
`c10trade` on a portfolio with no position at all, `can_execute_trade`
answers true, yet `apply_trade` raises from the `Position` constructor, so a
short sale is not *always* applicable. -/
theorem C10_counterexample :
    Trade.Valid c10trade ∧ Portfolio.Valid (Portfolio.create 100) ∧
    (Portfolio.create 100).get_position c10trade.ticker = none ∧
    ((Portfolio.create 100).can_execute_trade c10trade).1 = true ∧
    (Portfolio.create 100).apply_trade c10trade = .error "Position validation failed" := by
  refine ⟨?_, ?_, rfl, ?_, ?_⟩
  · refine ⟨by decide, by decide, by decide, by norm_num [c10trade],
      by norm_num [c10trade], by norm_num [c10trade], by norm_num [c10trade]⟩
  · intro k p h
    simp [Portfolio.create] at h
  · simp only [Portfolio.can_execute_trade, c10trade]
    rfl
  · simp only [Portfolio.apply_trade, c10trade, Portfolio.execute_short]
    have hg : (Portfolio.create 100).get_position (pyUpper "") = none := rfl
    simp only [hg]
    rw [Position.mkE, if_neg (fun hcond => absurd hcond.1 (by decide))]
    rfl

/-- Claim C10 (amended): for every pydantic-constructible portfolio and short
trade with nonempty normalized ticker on a ticker with no long position,
`can_execute_trade` answers `(true, "")` and `apply_trade` succeeds —
regardless of the portfolio's cash and of the trade's quantity and price —
and the new cash is exactly the old cash plus
`quantity × price − fees − slippage`. -/
theorem C10_short_always_executes (P : Portfolio) (t : Trade)
    (hP : P.Valid) (ht : t.Valid) (hact : t.action = TradeAction.short)
    (hne : t.ticker ≠ "")
    (hnolong : ∀ pos, P.get_position (pyUpper t.ticker) = some pos →
      pos.side ≠ PositionSide.long) :
    P.can_execute_trade t = (true, "") ∧
    ∃ P2, P.apply_trade t = .ok P2 ∧
      P2.cash = P.cash + (t.quantity * t.price - t.fees - t.slippage) := by
  have hside : ∀ pos, P.get_position (pyUpper t.ticker) = some pos →
      pos.side = PositionSide.short := by
    intro pos hg
    cases hps : pos.side with
    | long => exact absurd hps (hnolong pos hg)
    | short => rfl
  constructor
  · rw [Portfolio.can_execute_trade, hact]
    cases hg : P.get_position (pyUpper t.ticker) with
    | none => simp only [hg]
    | some pos =>
        simp only [hg]
        rw [if_neg (fun hl => absurd hl (hnolong pos hg))]
  · obtain ⟨P2, hP2⟩ := execute_short_ok hP ht hact hne hside
    refine ⟨P2, ?_, (execute_short_inv hP2).1⟩
    rw [Portfolio.apply_trade, hact]
    exact hP2

/-- Witness for C10: shorting 5 shares at 3 on a fresh portfolio of 1 with
fees 2 adds exactly 5×3 − 2 = 13 in cash despite cash being tiny. -/
theorem C10_short_always_executes_witness :
    ((Portfolio.create 1).can_execute_trade ⟨"A", TradeAction.short, 5, 3, 2, 0⟩
      = (true, "")) ∧
    ∃ P2, (Portfolio.create 1).apply_trade ⟨"A", TradeAction.short, 5, 3, 2, 0⟩ = .ok P2 ∧
      P2.cash = (Portfolio.create 1).cash + ((5 : ℚ) * 3 - 2 - 0) := by
  exact C10_short_always_executes (Portfolio.create 1) ⟨"A", TradeAction.short, 5, 3, 2, 0⟩
    (fun k p h => by simp [Portfolio.create] at h)
    ⟨by decide, by decide, by decide, by norm_num, by norm_num, by norm_num, by norm_num⟩
    rfl (by decide)
    (fun pos hg => by simp [Portfolio.get_position, Portfolio.create] at hg)

/-! ## Reachability (claims C2 and C7) -/

/-- Portfolios reachable from `Portfolio.create c` (with `c > 0`) by
successful `apply_trade` calls on constructible trades and interleaved
`update_prices` calls with non-negative prices. -/
inductive Reachable : Portfolio → Prop where
  | create (c : ℚ) : 0 < c → Reachable (Portfolio.create c)
  | trade {P P2 : Portfolio} (t : Trade) : Reachable P → t.Valid →
      P.apply_trade t = .ok P2 → Reachable P2
  | update {P : Portfolio} (prices : List (String × ℚ)) : Reachable P →
      (∀ kv ∈ prices, 0 ≤ kv.2) → Reachable (P.update_prices prices)

theorem apply_trade_pos {P : Portfolio} {t : Trade} {P2 : Portfolio}
    (h : P.apply_trade t = .ok P2)
    (hpos : ∀ k p, (k, p) ∈ P.positions → 0 < p.quantity) :
    ∀ k p, (k, p) ∈ P2.positions → 0 < p.quantity := by
  have hins : ∀ np, 0 < np.quantity →
      P2.positions = insertPos P.positions (pyUpper t.ticker) np →
      ∀ k p, (k, p) ∈ P2.positions → 0 < p.quantity := by
    intro np hnp hP2 k p hm
    rw [hP2] at hm
    rcases mem_insertPos hm with hm | hm
    · exact hpos k p hm
    · have hp2 : p = np := congrArg Prod.snd hm
      rw [hp2]
      exact hnp
  have hers : P2.positions = erasePos P.positions (pyUpper t.ticker) →
      ∀ k p, (k, p) ∈ P2.positions → 0 < p.quantity := by
    intro hP2 k p hm
    rw [hP2] at hm
    exact hpos k p (mem_erasePos hm)
  rw [Portfolio.apply_trade] at h
  cases hact : t.action with
  | buy =>
      rw [hact] at h
      obtain ⟨_, _, np, hnp, hP2⟩ := execute_buy_inv h
      exact hins np hnp hP2
  | sell =>
      rw [hact] at h
      obtain ⟨_, hP2 | ⟨np, hnp, hP2⟩⟩ := execute_sell_inv h
      · exact hers hP2
      · exact hins np hnp hP2
  | short =>
      rw [hact] at h
      obtain ⟨_, np, hnp, hP2⟩ := execute_short_inv h
      exact hins np hnp hP2
  | cover =>
      rw [hact] at h
      obtain ⟨_, _, hP2 | ⟨np, hnp, hP2⟩⟩ := execute_cover_inv h
      · exact hers hP2
      · exact hins np hnp hP2

theorem update_prices_pos {P : Portfolio} {prices : List (String × ℚ)}
    (hpos : ∀ k p, (k, p) ∈ P.positions → 0 < p.quantity) :
    ∀ k p, (k, p) ∈ (P.update_prices prices).positions → 0 < p.quantity := by
  intro k p h
  simp only [Portfolio.update_prices] at h
  obtain ⟨kv0, hmem, heq⟩ := List.mem_map.1 h
  cases hl : prices.lookup kv0.1 with
  | some pr =>
      rw [hl] at heq
      cases heq
      exact hpos kv0.1 kv0.2 hmem
  | none =>
      rw [hl] at heq
      have heq2 : kv0 = (k, p) := heq
      rw [heq2] at hmem
      exact hpos k p hmem

theorem reachable_pos {P : Portfolio} (h : Reachable P) :
    ∀ k p, (k, p) ∈ P.positions → 0 < p.quantity := by
  induction h with
  | create c hc => intro k p hm; simp [Portfolio.create] at hm
  | trade t hR hv happ ih => exact apply_trade_pos happ ih
  | update prices hR hpr ih => exact update_prices_pos ih

/-- Claim C2: on every portfolio reachable from `create c` (`c > 0`) by
successful trades and non-negative price updates, `total_value` equals cash
plus the sum of `quantity × current_price` over all positions exactly, and
every stored position has strictly positive quantity (fully closed positions
are removed from the map). -/
theorem C2_invariants (P : Portfolio) (h : Reachable P) :
    P.total_value =
      P.cash + (P.positions.map (fun kv => kv.2.quantity * kv.2.current_price)).sum ∧
    ∀ k p, (k, p) ∈ P.positions → 0 < p.quantity :=
  ⟨rfl, reachable_pos h⟩

/-- Witness for C2 on a freshly created portfolio. -/
theorem C2_invariants_witness :
    Reachable (Portfolio.create 100) ∧
    ((Portfolio.create 100).total_value =
      (Portfolio.create 100).cash +
        ((Portfolio.create 100).positions.map
          (fun kv => kv.2.quantity * kv.2.current_price)).sum ∧
    ∀ k p, (k, p) ∈ (Portfolio.create 100).positions → 0 < p.quantity) :=
  ⟨Reachable.create 100 (by norm_num),
    C2_invariants (Portfolio.create 100) (Reachable.create 100 (by norm_num))⟩

/-- Portfolios reachable by trades that were all checked with
`can_execute_trade` returning true before application. -/
inductive ReachableChecked : Portfolio → Prop where
  | create (c : ℚ) : 0 < c → ReachableChecked (Portfolio.create c)
  | trade {P P2 : Portfolio} (t : Trade) : ReachableChecked P → t.Valid →
      (P.can_execute_trade t).1 = true → P.apply_trade t = .ok P2 →
      ReachableChecked P2

/-- A trade whose fees and slippage do not exceed its gross value when it is
a sell or a short (the closing/opening proceeds stay non-negative). -/
def Trade.feeBounded (t : Trade) : Prop :=
  (t.action = TradeAction.sell ∨ t.action = TradeAction.short) →
    t.fees + t.slippage ≤ t.quantity * t.price

/-- Portfolios reachable by checked trades whose sells and shorts are
fee-bounded. -/
inductive ReachableCheckedBounded : Portfolio → Prop where
  | create (c : ℚ) : 0 < c → ReachableCheckedBounded (Portfolio.create c)
  | trade {P P2 : Portfolio} (t : Trade) : ReachableCheckedBounded P → t.Valid →
      t.feeBounded → (P.can_execute_trade t).1 = true →
      P.apply_trade t = .ok P2 → ReachableCheckedBounded P2

/-- The concrete trades for the C7 counterexample. -/
def c7buy : Trade := ⟨"A", TradeAction.buy, 1, 50, 0, 0⟩

def c7sell : Trade := ⟨"A", TradeAction.sell, 1, 1, 200, 0⟩

def c7mid : Portfolio := ⟨50, [("A", ⟨"A", PositionSide.long, 1, 50, 50⟩)], 0, 100⟩

def c7end : Portfolio := ⟨-149, [], 0, 100⟩

/-- Counterexample to C7 as stated: from `create 100`, the checked buy of 1
share at 50 and then the checked sell of that share at price 1 with fees 200
(both allowed by `can_execute_trade`, which never checks a sell's fees
against its proceeds) leaves cash at −149 < 0. -/
theorem C7_counterexample :
    Trade.Valid c7buy ∧ Trade.Valid c7sell ∧
    ((Portfolio.create 100).can_execute_trade c7buy).1 = true ∧
    (Portfolio.create 100).apply_trade c7buy = .ok c7mid ∧
    (c7mid.can_execute_trade c7sell).1 = true ∧
    c7mid.apply_trade c7sell = .ok c7end ∧
    ReachableChecked c7end ∧ c7end.cash < 0 := by
  have hv1 : Trade.Valid c7buy := ⟨by decide, by decide, by decide,
    by norm_num [c7buy], by norm_num [c7buy], by norm_num [c7buy], by norm_num [c7buy]⟩
  have hv2 : Trade.Valid c7sell := ⟨by decide, by decide, by decide,
    by norm_num [c7sell], by norm_num [c7sell], by norm_num [c7sell], by norm_num [c7sell]⟩
  have hmoney : ¬ (c7buy.total_cost > (Portfolio.create 100).cash) := by
    norm_num [c7buy, Trade.total_cost, Trade.gross_value, Portfolio.create]
  have hce1 : ((Portfolio.create 100).can_execute_trade c7buy).1 = true := by
    simp only [Portfolio.can_execute_trade, c7buy]
    rw [if_neg (by norm_num [Trade.total_cost, Trade.gross_value, Portfolio.create])]
    rfl
  have happ1 : (Portfolio.create 100).apply_trade c7buy = .ok c7mid := by
    simp only [Portfolio.apply_trade, c7buy, Portfolio.execute_buy]
    rw [if_neg (by norm_num [Trade.total_cost, Trade.gross_value, Portfolio.create])]
    have hg : (Portfolio.create 100).get_position (pyUpper "A") = none := rfl
    simp only [hg]
    rw [Position.mkE, if_pos ⟨by decide, by decide, by norm_num,
      by norm_num [Trade.effective_price, Trade.is_opening], by norm_num⟩]
    simp only [Except.map, Except.ok.injEq, Portfolio.create, c7mid,
      Portfolio.mk.injEq, insertPos, List.cons.injEq, Prod.mk.injEq,
      Position.mk.injEq]
    norm_num [Trade.effective_price, Trade.is_opening, Trade.total_cost,
      Trade.gross_value]
    decide
  have hce2 : (c7mid.can_execute_trade c7sell).1 = true := by
    simp only [Portfolio.can_execute_trade, c7sell]
    simp only [show c7mid.get_position (pyUpper "A") =
      some ⟨"A", PositionSide.long, 1, 50, 50⟩ from by decide]
    rw [if_neg (by decide), if_neg (by norm_num)]
  have happ2 : c7mid.apply_trade c7sell = .ok c7end := by
    simp only [Portfolio.apply_trade, c7sell, Portfolio.execute_sell]
    simp only [show c7mid.get_position (pyUpper "A") =
      some ⟨"A", PositionSide.long, 1, 50, 50⟩ from by decide]
    rw [if_neg (by decide), if_neg (by norm_num)]
    rw [@remove_shares_ok ⟨"A", PositionSide.long, 1, 50, 50⟩ 1 (by decide)
      (by norm_num) (by norm_num)]
    simp only [Except.map, if_neg (lt_irrefl (1 : ℚ)), Except.ok.injEq, c7mid, c7end,
      Portfolio.mk.injEq, erasePos]
    norm_num
    decide
  refine ⟨hv1, hv2, hce1, happ1, hce2, happ2, ?_, by norm_num [c7end]⟩
  exact ReachableChecked.trade c7sell
    (ReachableChecked.trade c7buy (ReachableChecked.create 100 (by norm_num))
      hv1 hce1 happ1) hv2 hce2 happ2

/-- Claim C7 (amended): on every portfolio reachable from `create c`
(`c > 0`) by checked trades whose sells and shorts have
`fees + slippage ≤ quantity × price`, cash stays ≥ 0 after every step.
(The bound is necessary: `can_execute_trade` never compares a sell's or
short's costs against its proceeds, as the counterexample shows.) -/
theorem C7_cash_nonneg (P : Portfolio) (h : ReachableCheckedBounded P) :
    0 ≤ P.cash := by
  induction h with
  | create c hc => exact hc.le
  | trade t hR hv hfb hce happ ih =>
      rw [Portfolio.apply_trade] at happ
      cases hact : t.action with
      | buy =>
          rw [hact] at happ
          obtain ⟨hcash, hle, -⟩ := execute_buy_inv happ
          rw [hcash]
          linarith
      | sell =>
          rw [hact] at happ
          obtain ⟨hcash, -⟩ := execute_sell_inv happ
          have hb := hfb (Or.inl hact)
          rw [hcash]
          linarith
      | short =>
          rw [hact] at happ
          obtain ⟨hcash, -⟩ := execute_short_inv happ
          have hb := hfb (Or.inr hact)
          rw [hcash]
          linarith
      | cover =>
          rw [hact] at happ
          obtain ⟨hcash, hle, -⟩ := execute_cover_inv happ
          rw [hcash]
          linarith

/-- Witness for C7 on a freshly created portfolio. -/
theorem C7_cash_nonneg_witness :
    ReachableCheckedBounded (Portfolio.create 100) ∧ 0 ≤ (Portfolio.create 100).cash :=
  ⟨ReachableCheckedBounded.create 100 (by norm_num),
    C7_cash_nonneg (Portfolio.create 100)
      (ReachableCheckedBounded.create 100 (by norm_num))⟩

/-- Witness for C3 (amended) on a concrete long position. -/
theorem C3_add_remove_pnl_witness :
    ∃ p2, c3pos.add_shares 1 20 = .ok p2 ∧
      ∃ r, p2.remove_shares 1 = .ok r ∧
        r.2 = (if c3pos.side = PositionSide.long then
                c3pos.current_price -
                  (c3pos.quantity * c3pos.avg_price + 1 * 20) / (c3pos.quantity + 1)
              else
                (c3pos.quantity * c3pos.avg_price + 1 * 20) / (c3pos.quantity + 1) -
                  c3pos.current_price) * 1 ∧
        (c3pos.current_price = c3pos.avg_price → c3pos.avg_price = 20 → r.2 = 0) :=
  C3_add_remove_pnl c3pos 1 20 (by decide) (by norm_num) (by norm_num)

/-! ## Metrics sentinels (claim C8) -/

/-- A stand-in square root usable in concrete instances: zero exactly on
zero. -/
def sq0 : ℚ → ℚ := fun x => if x = 0 then 0 else 1

/-- A stand-in power function for concrete instances. -/
def pw0 : ℚ → ℚ → ℚ := fun _ _ => 0

/-- Counterexample to C8 as stated: a series with a single daily value has no
day-over-day return at all — hence no negative one — yet `sortino_ratio`
returns 0 from its empty-returns guard, not the positive-infinity
sentinel. -/
theorem C8_counterexample :
    dailyReturns [100000] = [] ∧
    ((dailyReturns [100000]).filter (fun r => r < 0)) = [] ∧
    sortino sq0 pw0 [100000] 100000 (2 / 100) = .fin 0 ∧
    MetricValue.fin 0 ≠ MetricValue.posInf := by
  refine ⟨rfl, rfl, rfl, ?_⟩
  intro h
  cases h

/-- Claim C8 (amended): for every series of positive daily values, (a) if
there is at least one day-over-day return and none is negative,
`sortino_ratio` returns the positive-infinity sentinel; (b) if the sample
variance of the negative returns is defined (at least two of them) and the
annualized standard deviation derived from it is 0, `sortino_ratio` returns
0; (c) if `max_drawdown` is exactly 0, `calmar_ratio` returns the
positive-infinity sentinel.  The sentinels are the defined outputs, not
coerced to zero or NaN. -/
theorem C8_metric_sentinels (sq : ℚ → ℚ) (pw : ℚ → ℚ → ℚ)
    (values : List ℚ) (initial rf : ℚ) (hpos : ∀ v ∈ values, 0 < v) :
    (dailyReturns values ≠ [] →
      (∀ r ∈ dailyReturns values, ¬ r < 0) →
      sortino sq pw values initial rf = .posInf) ∧
    (∀ v, sampleVariance ((dailyReturns values).filter (fun r => r < 0)) = some v →
      sq v * sq 252 = 0 →
      sortino sq pw values initial rf = .fin 0) ∧
    (maxDrawdown values = 0 → calmar pw values initial = .posInf) := by
  refine ⟨?_, ?_, ?_⟩
  · intro hne hnoneg
    simp only [sortino]
    rw [if_neg (fun h0 => hne (List.length_eq_zero.1 h0))]
    have hfil : (dailyReturns values).filter (fun r => r < 0) = [] := by
      rw [List.filter_eq_nil_iff]
      intro a ha
      simpa using hnoneg a ha
    rw [hfil]
    rfl
  · intro v hv hz
    simp only [sortino]
    have hlen2 : 2 ≤ ((dailyReturns values).filter (fun r => r < 0)).length := by
      by_contra hlt
      rw [sampleVariance, if_pos (by omega)] at hv
      cases hv
    have hne0 : (dailyReturns values).length ≠ 0 := by
      intro h0
      rw [List.length_eq_zero.1 h0] at hlen2
      simp at hlen2
    rw [if_neg hne0]
    have hfne : ((dailyReturns values).filter (fun r => r < 0)).length ≠ 0 := by omega
    rw [if_neg hfne, hv]
    simp only [hz]
    simp
  · intro hdd
    simp only [calmar]
    rw [hdd, abs_zero, if_pos rfl]

/-- Witness for C8 on a flat two-day series: no negative return, so sortino
is the infinity sentinel, and zero drawdown, so calmar is the infinity
sentinel. -/
theorem C8_metric_sentinels_witness :
    sortino sq0 pw0 [100, 100] 100 (2 / 100) = .posInf ∧
    calmar pw0 [100, 100] 100 = .posInf := by
  have h := C8_metric_sentinels sq0 pw0 [100, 100] 100 (2 / 100) (by norm_num)
  constructor
  · refine h.1 (by norm_num [dailyReturns]) ?_
    intro r hr
    simp only [dailyReturns] at hr
    rw [List.mem_singleton.1 hr]
    norm_num
  · refine h.2.2 ?_
    show maxDrawdown [100, 100] = 0
    rw [maxDrawdown, if_neg (by norm_num)]
    simp only [cummax, cummaxFrom, max_self, List.zipWith]
    norm_num

/-! ## Engine day loop (claim C9) -/

theorem stepDay_invoked {cfg : BacktestConfig} {strategy : ℕ → Portfolio → List Signal}
    {st : EngineState} {i : ℕ} {day : DayData} {st2 : EngineState}
    (h : stepDay cfg strategy st i day = .ok st2) :
    st2.invoked = st.invoked ++
      (if i % cfg.rebalance_frequency = 0 then [i] else []) := by
  simp only [stepDay] at h
  split_ifs at h with hreb
  · cases hexec : execSignals cfg (st.portfolio.update_prices day.prices)
      st.executed_trades (strategy i (st.portfolio.update_prices day.prices))
      day.prices with
    | error e => rw [hexec] at h; cases h
    | ok pair =>
        rw [hexec] at h
        cases h
        rw [if_pos hreb]
  · cases h
    rw [if_neg hreb]
    simp

theorem runFrom_invoked {cfg : BacktestConfig} {strategy : ℕ → Portfolio → List Signal}
    (days : List DayData) (st : EngineState) (i : ℕ) {st2 : EngineState}
    (h : runFrom cfg strategy st i days = .ok st2) :
    ∀ j, j ∈ st2.invoked ↔
      (j ∈ st.invoked ∨
        (i ≤ j ∧ j < i + days.length ∧ j % cfg.rebalance_frequency = 0)) := by
  induction days generalizing st i with
  | nil =>
      rw [runFrom] at h
      cases h
      intro j
      constructor
      · exact Or.inl
      · rintro (hj | ⟨h1, h2, -⟩)
        · exact hj
        · simp only [List.length_nil] at h2
          omega
  | cons day rest ih =>
      rw [runFrom] at h
      cases hstep : stepDay cfg strategy st i day with
      | error e => rw [hstep] at h; cases h
      | ok st3 =>
          rw [hstep] at h
          have hinv := stepDay_invoked hstep
          intro j
          rw [ih st3 (i + 1) h j, hinv, List.mem_append]
          by_cases hreb : i % cfg.rebalance_frequency = 0
      -- on a rebalance day the step appends the index i
          · rw [if_pos hreb]
            simp only [List.mem_singleton, List.length_cons]
            constructor
            · rintro ((hj | hj) | ⟨h1, h2, h3⟩)
              · exact Or.inl hj
              · exact Or.inr ⟨hj ▸ le_refl j, by omega, hj ▸ hreb⟩
              · exact Or.inr ⟨by omega, by omega, h3⟩
            · rintro (hj | ⟨h1, h2, h3⟩)
              · exact Or.inl (Or.inl hj)
              · rcases eq_or_lt_of_le h1 with heq | hlt
                · exact Or.inl (Or.inr heq.symm)
                · exact Or.inr ⟨hlt, by omega, h3⟩
          · rw [if_neg hreb]
            simp only [List.not_mem_nil, or_false, List.length_cons]
            constructor
            · rintro (hj | ⟨h1, h2, h3⟩)
              · exact Or.inl hj
              · exact Or.inr ⟨by omega, by omega, h3⟩
            · rintro (hj | ⟨h1, h2, h3⟩)
              · exact Or.inl hj
              · rcases eq_or_lt_of_le h1 with heq | hlt
                · exact absurd (heq ▸ h3) hreb
                · exact Or.inr ⟨hlt, by omega, h3⟩

/-- Claim C9: in the engine's day loop (with a positive rebalance frequency,
as the configuration contract requires), the strategy's `generate_signals` is
invoked on trading day index `i` exactly when `i % rebalance_frequency = 0`;
and in the per-signal execution loop, a built trade on which
`can_execute_trade` answers false is skipped — the portfolio and the trade
log are unchanged and the loop continues with the remaining signals instead
of aborting. -/
theorem C9_day_loop (cfg : BacktestConfig) (strategy : ℕ → Portfolio → List Signal)
    (days : List DayData) (hfreq : 0 < cfg.rebalance_frequency) :
    (∀ st, runEngine cfg strategy days = .ok st →
      ∀ i, i ∈ st.invoked ↔ (i < days.length ∧ i % cfg.rebalance_frequency = 0)) ∧
    (∀ (p : Portfolio) (log : List Trade) (sig : Signal) (rest : List Signal)
        (prices : List (String × ℚ)) (t : Trade),
      sig.actionable = true →
      signalToTrade cfg sig prices = some (.ok t) →
      (p.can_execute_trade t).1 = false →
      execSignals cfg p log (sig :: rest) prices = execSignals cfg p log rest prices) := by
  constructor
  · intro st hrun i
    rw [runEngine] at hrun
    split_ifs at hrun with hempty
    have h := runFrom_invoked days _ 0 hrun i
    rw [h]
    simp only [List.not_mem_nil, false_or, Nat.zero_add, Nat.zero_le, true_and]
  · intro p log sig rest prices t hact hst hfalse
    rw [execSignals, if_pos hact]
    simp only [hst, hfalse]
    simp

/-- Witness for C9: a one-day engine run with daily rebalancing invokes the
strategy exactly on day 0, and a signal whose built trade is too expensive is
skipped without aborting. -/
theorem C9_day_loop_witness :
    ((0 : ℕ) < 1) ∧
    (∀ st, runEngine ⟨100, 0, 0, 1⟩ (fun _ _ => []) [⟨[]⟩] = .ok st →
      ∀ i, i ∈ st.invoked ↔ (i < 1 ∧ i % 1 = 0)) ∧
    (∀ (p : Portfolio) (log : List Trade) (sig : Signal) (rest : List Signal)
        (prices : List (String × ℚ)) (t : Trade),
      sig.actionable = true →
      signalToTrade ⟨100, 0, 0, 1⟩ sig prices = some (.ok t) →
      (p.can_execute_trade t).1 = false →
      execSignals ⟨100, 0, 0, 1⟩ p log (sig :: rest) prices =
        execSignals ⟨100, 0, 0, 1⟩ p log rest prices) :=
  ⟨by norm_num,
    (C9_day_loop ⟨100, 0, 0, 1⟩ (fun _ _ => []) [⟨[]⟩] (by norm_num)).1,
    (C9_day_loop ⟨100, 0, 0, 1⟩ (fun _ _ => []) [⟨[]⟩] (by norm_num)).2⟩

end QuantLab
